import Mathlib

set_option maxHeartbeats 1000000

/- Shallow embedding of the streaming chat client of
   src/components/chat-interface.tsx.  That file contains two variants of the
   same component (an earlier draft and a reworked one); the claims cite line
   ranges in both, so both are modelled: variant A is the first component
   (lines 17-251, with a carry-over line buffer and replace-on-error), variant
   B is the second (lines 268-414, no carry-over buffer and append-on-error).

   JavaScript strings are modelled as lists of characters (`Str`).  The bytes
   of the HTTP body are turned into text by `TextDecoder.decode(value,
   (stream : true))`, a stateful platform decoder that carries partially
   received multi-byte sequences across chunk boundaries; per its platform
   contract the concatenation of its outputs is the decoded text of the full
   byte stream, so an arbitrary byte-level chunking of the body surfaces to
   the component as some character-level chunking of the same total text.
   Chunk streams are therefore modelled as `List Str` together with the
   constraint that their concatenation is fixed. -/

abbrev Str := List Char

/-- Concatenation of a list of strings (JS string concatenation folded). -/
def strCat (ls : List Str) : Str := ls.foldr (· ++ ·) []

/-- JS `String.prototype.trim` removes leading and trailing whitespace; the
component only ever asks whether `line.trim()` is falsy, i.e. whether the
string consists of whitespace only.  We model the usual whitespace characters
(JS also trims some rarer Unicode space characters, which never occur in the
wire format). -/
def isWsChar (c : Char) : Bool :=
  c == ' ' || c == '\t' || c == '\n' || c == '\r' || c == '\x0b' || c == '\x0c'

/-- `line.trim()` is falsy exactly when every character is whitespace. -/
def isBlank (s : Str) : Bool := s.all isWsChar

/-- True when the string contains no newline, i.e. it is a single line. -/
def noNl (s : Str) : Bool := !(s.contains '\n')

/-- JS `str.split("\n")`: the (always nonempty) list of newline-separated
segments. -/
def splitNl : Str → List Str
  | [] => [[]]
  | c :: cs =>
    let r := splitNl cs
    if c = '\n' then [] :: r else (c :: r.headD []) :: r.tail

/-- The same split presented as (complete lines, trailing fragment); used
only in proofs, to reason about `splitNl` under concatenation. -/
def linesRest : Str → List Str × Str
  | [] => ([], [])
  | c :: cs =>
    let p := linesRest cs
    if c = '\n' then ([] :: p.1, p.2)
    else
      match p.1 with
      | [] => ([], c :: p.2)
      | h :: t => ((c :: h) :: t, p.2)

/- ### JSON values and a model of `JSON.parse`

   `JSON.parse` is the platform JSON parser (RFC 8259 grammar).  Numbers are
   kept as their source lexeme: no claim inspects a numeric value, only
   truthiness, which is decidable from the lexeme. -/

inductive Json where
  | null
  | jbool (b : Bool)
  | jnum (lexeme : Str)
  | jstr (s : Str)
  | jarr (elems : List Json)
  | jobj (fields : List (Str × Json))

/-- JSON insignificant whitespace. -/
def skipWs (s : Str) : Str :=
  s.dropWhile (fun c => c == ' ' || c == '\t' || c == '\n' || c == '\r')

/-- Single-character string escapes of JSON. -/
def escChar (c : Char) : Option Char :=
  if c = '"' then some '"'
  else if c = '\\' then some '\\'
  else if c = '/' then some '/'
  else if c = 'b' then some '\x08'
  else if c = 'f' then some '\x0c'
  else if c = 'n' then some '\n'
  else if c = 'r' then some '\r'
  else if c = 't' then some '\t'
  else none

/-- Value of a hexadecimal digit. -/
def hexVal (c : Char) : Option Nat :=
  if '0' ≤ c ∧ c ≤ '9' then some (c.toNat - '0'.toNat)
  else if 'a' ≤ c ∧ c ≤ 'f' then some (c.toNat - 'a'.toNat + 10)
  else if 'A' ≤ c ∧ c ≤ 'F' then some (c.toNat - 'A'.toNat + 10)
  else none

/-- Body of a JSON string after the opening quote: returns the decoded
content and the input after the closing quote.  (`Char.ofNat` maps a
`\uXXXX` escape denoting a lone surrogate to a default character; such
escapes never occur in the streams under study.) -/
def parseStringBody : Str → Option (Str × Str)
  | '"' :: rest => some ([], rest)
  | '\\' :: 'u' :: a :: b :: c :: d :: rest =>
    (match hexVal a, hexVal b, hexVal c, hexVal d with
     | some va, some vb, some vc, some vd =>
       (parseStringBody rest).map
         (fun p => (Char.ofNat (((va * 16 + vb) * 16 + vc) * 16 + vd) :: p.1, p.2))
     | _, _, _, _ => none)
  | '\\' :: e :: rest =>
    (match escChar e with
     | some ec => (parseStringBody rest).map (fun p => (ec :: p.1, p.2))
     | none => none)
  | c :: rest =>
    if c.toNat < 32 then none
    else (parseStringBody rest).map (fun p => (c :: p.1, p.2))
  | [] => none

/-- Longest digit prefix and the remainder. -/
def digitsPart (s : Str) : Str × Str := (s.takeWhile Char.isDigit, s.dropWhile Char.isDigit)

/-- Integer part of a JSON number: `0`, or a nonzero leading digit followed
by digits. -/
def parseIntPart (s : Str) : Option (Str × Str) :=
  match s with
  | '0' :: rest => some (['0'], rest)
  | c :: _ => if c.isDigit then some (digitsPart s) else none
  | [] => none

/-- Optional fraction part of a JSON number. -/
def parseFrac (s : Str) : Option (Str × Str) :=
  match s with
  | '.' :: rest =>
    (match digitsPart rest with
     | ([], _) => none
     | (ds, r) => some ('.' :: ds, r))
  | _ => some ([], s)

/-- Optional exponent part of a JSON number. -/
def parseExpPart (s : Str) : Option (Str × Str) :=
  match s with
  | e :: rest =>
    if e = 'e' ∨ e = 'E' then
      let p : Str × Str :=
        match rest with
        | '+' :: r => (['+'], r)
        | '-' :: r => (['-'], r)
        | _ => ([], rest)
      match digitsPart p.2 with
      | ([], _) => none
      | (ds, r) => some (e :: (p.1 ++ ds), r)
    else some ([], s)
  | [] => some ([], [])

/-- A JSON number lexeme: optional minus, integer part, optional fraction,
optional exponent. -/
def parseNumberLex (s : Str) : Option (Str × Str) :=
  let sp : Str × Str := match s with | '-' :: r => (['-'], r) | _ => ([], s)
  match parseIntPart sp.2 with
  | none => none
  | some (ip, r1) =>
    match parseFrac r1 with
    | none => none
    | some (fp, r2) =>
      match parseExpPart r2 with
      | none => none
      | some (ep, r3) => some (sp.1 ++ ip ++ fp ++ ep, r3)

mutual

/-- A JSON value, by fuel-indexed recursive descent (the fuel only bounds the
recursion; `jsonParse` supplies enough for any input). -/
def parseValue : Nat → Str → Option (Json × Str)
  | 0, _ => none
  | fuel + 1, s =>
    match skipWs s with
    | 'n' :: 'u' :: 'l' :: 'l' :: r => some (Json.null, r)
    | 't' :: 'r' :: 'u' :: 'e' :: r => some (Json.jbool true, r)
    | 'f' :: 'a' :: 'l' :: 's' :: 'e' :: r => some (Json.jbool false, r)
    | '"' :: r => (parseStringBody r).map (fun p => (Json.jstr p.1, p.2))
    | '\x7b' :: r =>
      (match skipWs r with
       | '\x7d' :: r2 => some (Json.jobj [], r2)
       | _ => (parseMembers fuel r).map (fun p => (Json.jobj p.1, p.2)))
    | '[' :: r =>
      (match skipWs r with
       | ']' :: r2 => some (Json.jarr [], r2)
       | _ => (parseElements fuel r).map (fun p => (Json.jarr p.1, p.2)))
    | s2 => (parseNumberLex s2).map (fun p => (Json.jnum p.1, p.2))

/-- Members of a JSON object after the opening brace. -/
def parseMembers : Nat → Str → Option (List (Str × Json) × Str)
  | 0, _ => none
  | fuel + 1, s =>
    match skipWs s with
    | '"' :: r =>
      (match parseStringBody r with
       | none => none
       | some (k, r2) =>
         match skipWs r2 with
         | ':' :: r3 =>
           (match parseValue fuel r3 with
            | none => none
            | some (v, r4) =>
              match skipWs r4 with
              | ',' :: r5 => (parseMembers fuel r5).map (fun p => ((k, v) :: p.1, p.2))
              | '\x7d' :: r5 => some ([(k, v)], r5)
              | _ => none)
         | _ => none)
    | _ => none

/-- Elements of a JSON array after the opening bracket. -/
def parseElements : Nat → Str → Option (List Json × Str)
  | 0, _ => none
  | fuel + 1, s =>
    match parseValue fuel s with
    | none => none
    | some (v, r) =>
      match skipWs r with
      | ',' :: r2 => (parseElements fuel r2).map (fun p => (v :: p.1, p.2))
      | ']' :: r2 => some ([v], r2)
      | _ => none

end

/-- Model of `JSON.parse`: parse one value and require only whitespace after
it; `none` models the thrown `SyntaxError`.  The fuel `2 * length + 2`
dominates the recursion depth of any input. -/
def jsonParse (s : Str) : Option Json :=
  match parseValue (2 * s.length + 2) s with
  | some (j, r) => if (skipWs r).isEmpty then some j else none
  | none => none

/-- Property read `obj[key]` on a parse result: only objects have own
properties here, and `JSON.parse` lets a later duplicate key overwrite an
earlier one, so the last binding wins.  `none` models `undefined` (and for
`Json.null` the `TypeError` thrown by the read, which the component's
`try`/`catch` turns into the same skip). -/
def jsGetField (j : Json) (key : Str) : Option Json :=
  match j with
  | Json.jobj fs => (fs.reverse.find? (fun kv => kv.1 == key)).map (fun kv => kv.2)
  | _ => none

/-- A number lexeme denotes zero exactly when all mantissa digits are `0`. -/
def mantissaAllZero (lex : Str) : Bool :=
  ((lex.takeWhile (fun c => c ≠ 'e' ∧ c ≠ 'E')).filter Char.isDigit).all (· == '0')

/-- JS truthiness of a `JSON.parse` result. -/
def jsTruthy (j : Json) : Bool :=
  match j with
  | Json.null => false
  | Json.jbool b => b
  | Json.jnum lex => !(mantissaAllZero lex)
  | Json.jstr s => !s.isEmpty
  | Json.jarr _ => true
  | Json.jobj _ => true

mutual

/-- JS string coercion `String(v)` of a `JSON.parse` result, as used by
`fullResponse += data.response`.  (For numbers JS renders the numeric value;
we keep the lexeme, which agrees on already-canonical lexemes.  No claim
exercises a non-string delta.) -/
def jsToStr : Json → Str
  | Json.null => "null".data
  | Json.jbool true => "true".data
  | Json.jbool false => "false".data
  | Json.jnum lex => lex
  | Json.jstr s => s
  | Json.jarr xs => jsArrElems xs
  | Json.jobj _ => "[object Object]".data

/-- `Array.prototype.join` with the default comma separator: `null` renders
empty inside an array. -/
def jsArrElems : List Json → Str
  | [] => []
  | [Json.null] => []
  | [x] => jsToStr x
  | Json.null :: xs => ',' :: jsArrElems xs
  | x :: xs => jsToStr x ++ ',' :: jsArrElems xs

end

/- field names of the wire format -/
def respKey : Str := "response".data
def msgKey : Str := "message".data
def contentKey : Str := "content".data
def doneKey : Str := "done".data

/-- The delta string the frame `j` carries per the code: `data.response`,
taken only when truthy, coerced to string. -/
def respDelta (j : Json) : Option Str :=
  match jsGetField j respKey with
  | some v => if jsTruthy v then some (jsToStr v) else none
  | none => none

/-- The `done` flag of a frame when present as a boolean. -/
def doneFlag (j : Json) : Option Bool :=
  match jsGetField j doneKey with
  | some (Json.jbool b) => some b
  | _ => none

/- ### Conversation data model (the `Message` interface and `useState` cells) -/

inductive Role where
  | user
  | assistant
deriving DecidableEq

structure Message where
  id : Str
  role : Role
  content : Str
deriving DecidableEq

instance : Inhabited Message := ⟨⟨[], Role.user, []⟩⟩

/-- The component state touched by `handleSendMessage`: the `messages`,
`input` and `isLoading` state cells. -/
structure AppState where
  messages : List Message
  input : Str
  isLoading : Bool
deriving DecidableEq

/-- `Number.prototype.toString` for the naturals produced by `Date.now()`:
standard decimal rendering. -/
def digitChar (d : Nat) : Char :=
  match d with
  | 0 => '0' | 1 => '1' | 2 => '2' | 3 => '3' | 4 => '4'
  | 5 => '5' | 6 => '6' | 7 => '7' | 8 => '8' | 9 => '9'
  | _ => '*'

/-- Decimal rendering by repeated division; the fuel only bounds the
recursion and `n + 1` always suffices. -/
def natToStrAux : Nat → Nat → Str → Str
  | 0, _, acc => acc
  | fuel + 1, n, acc =>
    if n < 10 then digitChar n :: acc
    else natToStrAux fuel (n / 10) (digitChar (n % 10) :: acc)

def natToStr (n : Nat) : Str := natToStrAux (n + 1) n []

/-- The streaming update `setMessages((prev) => prev.map((msg) => msg.id ===
assistantMessageId ? (msg with content replaced by fullResponse) : msg))`,
identical in both variants. -/
def updateMessages (aid full : Str) (ms : List Message) : List Message :=
  ms.map (fun m => if m.id = aid then { m with content := full } else m)

/-- The body of the per-line `try`/`catch` shared by both variants:
`const data = JSON.parse(line); if (data.response) ...`.  A parse failure, a
`TypeError` from reading `.response` off `null`, or a falsy `data.response`
all leave the state unchanged. -/
def applyData (aid : Str) (s : Str × List Message) (line : Str) : Str × List Message :=
  match jsonParse line with
  | none => s
  | some j =>
    match jsGetField j respKey with
    | some v =>
      if jsTruthy v then
        let full := s.1 ++ jsToStr v
        (full, updateMessages aid full s.2)
      else s
    | none => s

/-- Variant A's loop body over one extracted line, including the
`if (!line.trim()) continue` guard. -/
def lineStepA (aid : Str) (s : Str × List Message) (line : Str) : Str × List Message :=
  if isBlank line then s else applyData aid s line

/-- Decoder state of variant A inside the read loop: the carry-over `buffer`,
the accumulated `fullResponse`, and the conversation. -/
structure StreamStA where
  buffer : Str
  fullResponse : Str
  messages : List Message
deriving DecidableEq

/-- Variant A's handling of one decoded chunk (lines 84-109): append the
chunk to the buffer, split on newlines, keep the last (possibly incomplete)
fragment as the new buffer, and run the line loop on the complete lines. -/
def chunkStepA (aid : Str) (st : StreamStA) (chunk : Str) : StreamStA :=
  let parts := splitNl (st.buffer ++ chunk)
  let fm := (parts.dropLast).foldl (lineStepA aid) (st.fullResponse, st.messages)
  ⟨parts.getLastD [], fm.1, fm.2⟩

/-- Variant A's whole read loop over the sequence of decoded chunks. -/
def processChunksA (aid : Str) (st : StreamStA) (chunks : List Str) : StreamStA :=
  chunks.foldl (chunkStepA aid) st

/-- The complete lines variant A's decoder extracts from the chunk sequence,
in processing order (the implicit frame stream of the decoder). -/
def extractedLinesA (buf : Str) : List Str → List Str
  | [] => []
  | c :: cs =>
    let parts := splitNl (buf ++ c)
    parts.dropLast ++ extractedLinesA (parts.getLastD []) cs

/-- The frames variant A decodes: the successfully parsed non-blank extracted
lines, in order. -/
def decodedFramesA (chunks : List Str) : List Json :=
  ((extractedLinesA [] chunks).filter (fun l => !isBlank l)).filterMap jsonParse

/-- Variant B's handling of one decoded chunk (lines 333-350): split the
chunk itself on newlines — there is no carry-over buffer — drop blank lines,
and run the line loop. -/
def chunkStepB (aid : Str) (s : Str × List Message) (chunk : Str) : Str × List Message :=
  ((splitNl chunk).filter (fun l => !isBlank l)).foldl (applyData aid) s

/-- Variant B's whole read loop. -/
def processChunksB (aid : Str) (s : Str × List Message) (chunks : List Str) : Str × List Message :=
  chunks.foldl (chunkStepB aid) s

/-- The frames variant B decodes from the chunk sequence. -/
def decodedFramesB (chunks : List Str) : List Json :=
  (chunks.map (fun c => ((splitNl c).filter (fun l => !isBlank l)).filterMap jsonParse)).foldr
    (· ++ ·) []

/- ### The fetch boundary

   `fetch` and the reader are the transport collaborator; one call resolves
   to one of: a rejected promise (network failure), a non-ok response, an ok
   response with no readable body, or an ok response whose body delivers a
   sequence of chunks and then either ends cleanly or rejects a read
   mid-stream. -/

inductive FetchOutcome where
  | transportFail (msg : Str)
  | httpError (statusText : Str)
  | noReader
  | stream (chunks : List Str) (failMsg : Option Str)

/-- Outcomes whose execution reaches the `catch` block (the spec's `Errored`
results: transport failure, non-success status, mid-stream read failure). -/
def isErrorOutcome : FetchOutcome → Bool
  | FetchOutcome.transportFail _ => true
  | FetchOutcome.httpError _ => true
  | FetchOutcome.noReader => false
  | FetchOutcome.stream _ failMsg => failMsg.isSome

/-- The `error.message` string the `catch` block renders. -/
def errMsgOf : FetchOutcome → Str
  | FetchOutcome.transportFail msg => msg
  | FetchOutcome.httpError stx => "API error: ".data ++ stx
  | FetchOutcome.noReader => []
  | FetchOutcome.stream _ failMsg => failMsg.getD []

/-- Variant A's `catch` block (lines 112-122): replace the last message (the
assistant placeholder) with a fresh assistant message carrying the error
text; the prefix below is the literal bytes in the source. -/
def errReplaceA (t3 : Nat) (emsg : Str) (ms : List Message) : List Message :=
  ms.dropLast ++ [⟨natToStr t3, Role.assistant, "âŒ Error: ".data ++ emsg⟩]

/-- Variant A's `handleSendMessage`, as a state transition parameterised by
the three `Date.now()` readings it may take (`t1` for the user message, `t2`
for the assistant placeholder id `t2 + 1`, `t3` at the `catch` block) and by
the transport outcome.  The guard, the appends, the streaming loop, the
`catch` replacement and the `finally` are lines 36-126 of the source. -/
def handleSendMessageA (st : AppState) (t1 t2 t3 : Nat) (outcome : FetchOutcome) : AppState :=
  if isBlank st.input || st.isLoading then st
  else
    let userMsg : Message := ⟨natToStr t1, Role.user, st.input⟩
    let aid := natToStr (t2 + 1)
    let ms2 := (st.messages ++ [userMsg]) ++ [⟨aid, Role.assistant, []⟩]
    match outcome with
    | FetchOutcome.transportFail msg => ⟨errReplaceA t3 msg ms2, [], false⟩
    | FetchOutcome.httpError stx =>
      ⟨errReplaceA t3 ("API error: ".data ++ stx) ms2, [], false⟩
    | FetchOutcome.noReader => ⟨ms2, [], false⟩
    | FetchOutcome.stream chunks failMsg =>
      let fin := processChunksA aid ⟨[], [], ms2⟩ chunks
      match failMsg with
      | none => ⟨fin.messages, [], false⟩
      | some msg => ⟨errReplaceA t3 msg fin.messages, [], false⟩

/-- Variant B's `catch` block (lines 356-363): append a fresh assistant error
message with id `(Date.now() + 2).toString()`, leaving the placeholder in
place. -/
def errAppendB (t3 : Nat) (emsg : Str) (ms : List Message) : List Message :=
  ms ++ [⟨natToStr (t3 + 2), Role.assistant, "Error: ".data ++ emsg⟩]

/-- Variant B's `handleSendMessage` (lines 282-367). -/
def handleSendMessageB (st : AppState) (t1 t2 t3 : Nat) (outcome : FetchOutcome) : AppState :=
  if isBlank st.input || st.isLoading then st
  else
    let userMsg : Message := ⟨natToStr t1, Role.user, st.input⟩
    let aid := natToStr (t2 + 1)
    let ms2 := (st.messages ++ [userMsg]) ++ [⟨aid, Role.assistant, []⟩]
    match outcome with
    | FetchOutcome.transportFail msg => ⟨errAppendB t3 msg ms2, [], false⟩
    | FetchOutcome.httpError stx =>
      ⟨errAppendB t3 ("API error: ".data ++ stx) ms2, [], false⟩
    | FetchOutcome.noReader => ⟨ms2, [], false⟩
    | FetchOutcome.stream chunks failMsg =>
      let fin := processChunksB aid ([], ms2) chunks
      match failMsg with
      | none => ⟨fin.2, [], false⟩
      | some msg => ⟨errAppendB t3 msg fin.2, [], false⟩

/- ### Derived notions used in the statements and proofs -/

/-- Merge the trailing fragment of an earlier string into the first line of a
later one (proof helper for `linesRest` under concatenation). -/
def mergeLR (ra : Str) (p : List Str × Str) : List Str × Str :=
  match p.1 with
  | [] => ([], ra ++ p.2)
  | h :: t => ((ra ++ h) :: t, p.2)

/-- The `response` field of a frame when present as a string. -/
def respStr (j : Json) : Option Str :=
  match jsGetField j respKey with
  | some (Json.jstr s) => some s
  | _ => none

/-- The contribution of one line to `fullResponse`: the coerced `response`
value when the line parses and the field is truthy, nothing otherwise. -/
def deltaOfLineRaw (l : Str) : Str :=
  match jsonParse l with
  | some j => (respDelta j).getD []
  | none => []

/-- The contribution of one line in variant A's loop (blank lines are
skipped before parsing). -/
def deltaOfLineA (l : Str) : Str :=
  if isBlank l then [] else deltaOfLineRaw l

/-- A wire-format frame line carrying the string delta `d` and terminal flag
`dn`: a non-blank single line whose JSON parse is an object with string
field `response = d` and boolean field `done = dn`. -/
def validLine (l d : Str) (dn : Bool) : Bool :=
  !isBlank l && noNl l &&
    (match jsonParse l with
     | some j => respStr j == some d && doneFlag j == some dn
     | none => false)

/-- Streaming updates only retarget the placeholder: `ms'` has the same
length as `ms`, every position keeps its identifier and role, and every
position whose identifier differs from `aid` is entirely unchanged. -/
def PreservesShape (aid : Str) (ms ms' : List Message) : Prop :=
  ms'.length = ms.length ∧
    ∀ i : Nat,
      (ms'.getD i default).id = (ms.getD i default).id ∧
      (ms'.getD i default).role = (ms.getD i default).role ∧
      ((ms.getD i default).id ≠ aid → ms'.getD i default = ms.getD i default)

/-- Modelled from the spec: "A frame's content delta is read from
`message.content` if present, else from `response`" (§6).  This is the
specified delta-selection rule, written here only to compare with what the
code (`applyData`) actually reads. -/
def specContentDelta (j : Json) : Option Str :=
  match (jsGetField j msgKey).bind (fun m => jsGetField m contentKey) with
  | some (Json.jstr s) => some s
  | _ => respStr j

/-- One user exchange as driven from the outside: the text typed into the
input, the `Date.now()` readings, and the transport outcome. -/
structure ExchangeIn where
  content : Str
  t1 : Nat
  t2 : Nat
  t3 : Nat
  outcome : FetchOutcome

/-- A sequence of exchanges against variant A: before each send the typed
text is placed in the input cell (the `onChange` handler), then
`handleSendMessage` runs to completion. -/
def runA (st : AppState) (xs : List ExchangeIn) : AppState :=
  xs.foldl
    (fun s x => handleSendMessageA ⟨s.messages, x.content, s.isLoading⟩ x.t1 x.t2 x.t3 x.outcome)
    st

/-- Clock discipline under which identifiers stay distinct: within an
exchange the readings are non-decreasing and the `catch`-time reading is
past the placeholder id, and each exchange starts strictly after the
previous one's last reading. -/
def clockOk : Nat → List ExchangeIn → Bool
  | _, [] => true
  | b, x :: xs => b ≤ x.t1 && x.t1 ≤ x.t2 && x.t2 + 1 ≤ x.t3 && clockOk (x.t3 + 1) xs

/-- The contribution of one chunk to `fullResponse` in variant B: the
concatenated deltas of the chunk's own non-blank lines. -/
def deltasOfChunkB (c : Str) : Str :=
  strCat (((splitNl c).filter (fun l => !isBlank l)).map deltaOfLineRaw)

/- ### Lemmas: line splitting and the carry-over buffer -/

theorem splitNl_eq (s : Str) : splitNl s = (linesRest s).1 ++ [(linesRest s).2] := by
  induction s with
  | nil => simp [splitNl, linesRest]
  | cons c cs ih =>
    simp only [splitNl, linesRest]
    by_cases h : c = '\n'
    · simp [h, ih]
    · simp only [if_neg h]
      cases hp : (linesRest cs).1 with
      | nil => simp [ih, hp]
      | cons h2 t => simp [ih, hp]

theorem mergeLR_nil (p : List Str × Str) : mergeLR [] p = p := by
  cases p with
  | mk l r => cases l <;> simp [mergeLR]

theorem linesRest_append (a b : Str) :
    linesRest (a ++ b) =
      ((linesRest a).1 ++ (mergeLR (linesRest a).2 (linesRest b)).1,
       (mergeLR (linesRest a).2 (linesRest b)).2) := by
  induction a with
  | nil => simp [linesRest, mergeLR_nil]
  | cons c a' ih =>
    simp only [List.cons_append, linesRest]
    by_cases h : c = '\n'
    · simp [h, ih]
    · simp only [if_neg h, List.append_eq]
      rw [ih]
      cases hla : (linesRest a').1 with
      | nil =>
        cases hlb : (linesRest b).1 with
        | nil => simp [mergeLR, hla, hlb]
        | cons hb tb => simp [mergeLR, hla, hlb]
      | cons h2 t => simp [mergeLR, hla]

theorem strCat_nil : strCat [] = [] := rfl

theorem strCat_cons (c : Str) (cs : List Str) : strCat (c :: cs) = c ++ strCat cs := rfl

theorem linesRest_noNl (s : Str) (h : noNl s = true) : linesRest s = ([], s) := by
  induction s with
  | nil => simp [linesRest]
  | cons c cs ih =>
    by_cases hc : c = '\n'
    · simp [noNl, hc, List.contains_cons] at h
    · have h2 : noNl cs = true := by
        simp only [noNl, Bool.not_eq_true'] at h ⊢
        simp only [List.contains_cons, Bool.or_eq_false_iff] at h
        exact h.2
      simp [linesRest, hc, ih h2]

theorem noNl_linesRest_rest (s : Str) : noNl (linesRest s).2 = true := by
  induction s with
  | nil => simp [linesRest, noNl]
  | cons c cs ih =>
    by_cases hc : c = '\n'
    · simp [linesRest, hc, ih]
    · cases hla : (linesRest cs).1 with
      | nil =>
        simp only [linesRest, if_neg hc, hla]
        simp only [noNl, List.contains_cons, Bool.not_eq_true', Bool.or_eq_false_iff] at ih ⊢
        exact ⟨by rw [beq_eq_false_iff_ne]; exact fun hh => hc hh.symm, ih⟩
      | cons hh tt => simp [linesRest, hc, hla, ih]

theorem chunkStepA_eq (aid : Str) (st : StreamStA) (c : Str) :
    chunkStepA aid st c =
      ⟨(linesRest (st.buffer ++ c)).2,
       ((linesRest (st.buffer ++ c)).1.foldl (lineStepA aid) (st.fullResponse, st.messages)).1,
       ((linesRest (st.buffer ++ c)).1.foldl (lineStepA aid) (st.fullResponse, st.messages)).2⟩ := by
  unfold chunkStepA
  rw [splitNl_eq]
  simp [List.dropLast_concat, List.getLastD_eq_getLast?, List.getLast?_concat]

theorem processChunksA_eq (aid : Str) (buf fr : Str) (ms : List Message) (chunks : List Str)
    (h : noNl buf = true) :
    processChunksA aid ⟨buf, fr, ms⟩ chunks =
      ⟨(linesRest (buf ++ strCat chunks)).2,
       ((linesRest (buf ++ strCat chunks)).1.foldl (lineStepA aid) (fr, ms)).1,
       ((linesRest (buf ++ strCat chunks)).1.foldl (lineStepA aid) (fr, ms)).2⟩ := by
  induction chunks generalizing buf fr ms with
  | nil =>
    simp [processChunksA, strCat_nil, linesRest_noNl buf h]
  | cons c cs ih =>
    have step : processChunksA aid ⟨buf, fr, ms⟩ (c :: cs) =
        processChunksA aid (chunkStepA aid ⟨buf, fr, ms⟩ c) cs := rfl
    rw [step, chunkStepA_eq]
    rw [ih _ _ _ (noNl_linesRest_rest (buf ++ c))]
    rw [strCat_cons, ← List.append_assoc]
    rw [linesRest_append (buf ++ c) (strCat cs)]
    rw [linesRest_append ((linesRest (buf ++ c)).2) (strCat cs)]
    rw [linesRest_noNl _ (noNl_linesRest_rest (buf ++ c))]
    simp [List.foldl_append]

theorem extractedLinesA_eq (buf : Str) (chunks : List Str) (h : noNl buf = true) :
    extractedLinesA buf chunks = (linesRest (buf ++ strCat chunks)).1 := by
  induction chunks generalizing buf with
  | nil => simp [extractedLinesA, strCat_nil, linesRest_noNl buf h]
  | cons c cs ih =>
    simp only [extractedLinesA]
    rw [splitNl_eq, List.dropLast_concat, List.getLastD_eq_getLast?, List.getLast?_concat]
    simp only [Option.getD_some]
    rw [ih _ (noNl_linesRest_rest (buf ++ c))]
    rw [strCat_cons, ← List.append_assoc, linesRest_append (buf ++ c) (strCat cs),
        linesRest_append ((linesRest (buf ++ c)).2) (strCat cs),
        linesRest_noNl _ (noNl_linesRest_rest (buf ++ c))]
    simp

/- ### Lemmas: the per-line loop -/

theorem applyData_fst (aid : Str) (s : Str × List Message) (l : Str) :
    (applyData aid s l).1 = s.1 ++ deltaOfLineRaw l := by
  unfold applyData deltaOfLineRaw respDelta
  cases hj : jsonParse l with
  | none => simp
  | some j =>
    cases hf : jsGetField j respKey with
    | none => simp [hf]
    | some v =>
      by_cases ht : jsTruthy v
      · simp [hf, ht]
      · simp [hf, ht]

theorem lineStepA_fst (aid : Str) (s : Str × List Message) (l : Str) :
    (lineStepA aid s l).1 = s.1 ++ deltaOfLineA l := by
  unfold lineStepA deltaOfLineA
  by_cases hb : isBlank l
  · simp [hb]
  · simp [hb, applyData_fst]

theorem foldl_lineStepA_fst (aid : Str) (lines : List Str) (s : Str × List Message) :
    (lines.foldl (lineStepA aid) s).1 = s.1 ++ strCat (lines.map deltaOfLineA) := by
  induction lines generalizing s with
  | nil => simp [strCat_nil]
  | cons l ls ih =>
    simp only [List.foldl_cons, List.map_cons, strCat_cons]
    rw [ih, lineStepA_fst, List.append_assoc]

/- ### Lemmas: shape preservation of streaming updates -/

theorem updateMessages_length (aid full : Str) (ms : List Message) :
    (updateMessages aid full ms).length = ms.length := by
  simp [updateMessages]

theorem updateMessages_getD (aid full : Str) (ms : List Message) (i : Nat) :
    (updateMessages aid full ms).getD i default =
      (if i < ms.length ∧ (ms.getD i default).id = aid
       then ⟨(ms.getD i default).id, (ms.getD i default).role, full⟩
       else ms.getD i default) := by
  rw [List.getD_eq_getElem?_getD, List.getD_eq_getElem?_getD, updateMessages,
    List.getElem?_map]
  by_cases hi : i < ms.length
  · have hm : ms[i]? = some ms[i] := List.getElem?_eq_getElem hi
    rw [hm]
    by_cases hid : (ms[i]).id = aid
    · simp [hi, hid]
    · simp [hi, hid]
  · have hm : ms[i]? = none := List.getElem?_eq_none (le_of_not_lt hi)
    rw [hm]
    simp [hi]

theorem preservesShape_refl (aid : Str) (ms : List Message) : PreservesShape aid ms ms :=
  ⟨rfl, fun _ => ⟨rfl, rfl, fun _ => rfl⟩⟩

theorem preservesShape_trans {aid : Str} {ms1 ms2 ms3 : List Message}
    (h1 : PreservesShape aid ms1 ms2) (h2 : PreservesShape aid ms2 ms3) :
    PreservesShape aid ms1 ms3 := by
  refine ⟨h2.1.trans h1.1, fun i => ?_⟩
  obtain ⟨i1, r1, u1⟩ := h1.2 i
  obtain ⟨i2, r2, u2⟩ := h2.2 i
  refine ⟨i2.trans i1, r2.trans r1, fun hne => ?_⟩
  have e1 := u1 hne
  have e2 := u2 (by rw [i1]; exact hne)
  rw [e2, e1]

theorem updateMessages_shape (aid full : Str) (ms : List Message) :
    PreservesShape aid ms (updateMessages aid full ms) := by
  refine ⟨updateMessages_length aid full ms, fun i => ?_⟩
  rw [updateMessages_getD]
  by_cases hcond : i < ms.length ∧ (ms.getD i default).id = aid
  · simp only [if_pos hcond]
    exact ⟨by trivial, by trivial, fun hne => absurd hcond.2 hne⟩
  · simp only [if_neg hcond]
    exact ⟨by trivial, by trivial, fun _ => by trivial⟩

theorem applyData_shape (aid : Str) (s : Str × List Message) (l : Str) :
    PreservesShape aid s.2 (applyData aid s l).2 := by
  unfold applyData
  cases hj : jsonParse l with
  | none => exact preservesShape_refl aid s.2
  | some j =>
    cases hf : jsGetField j respKey with
    | none =>
      simp only [hf]
      exact preservesShape_refl aid s.2
    | some v =>
      simp only [hf]
      by_cases ht : jsTruthy v
      · rw [if_pos ht]
        exact updateMessages_shape aid _ s.2
      · rw [if_neg ht]
        exact preservesShape_refl aid s.2

theorem lineStepA_shape (aid : Str) (s : Str × List Message) (l : Str) :
    PreservesShape aid s.2 (lineStepA aid s l).2 := by
  unfold lineStepA
  by_cases hb : isBlank l
  · simp only [hb]
    exact preservesShape_refl aid s.2
  · simp only [hb]
    exact applyData_shape aid s l

theorem foldl_lineStepA_shape (aid : Str) (lines : List Str) (s : Str × List Message) :
    PreservesShape aid s.2 (lines.foldl (lineStepA aid) s).2 := by
  induction lines generalizing s with
  | nil => exact preservesShape_refl aid s.2
  | cons l ls ih =>
    exact preservesShape_trans (lineStepA_shape aid s l) (ih (lineStepA aid s l))

theorem processChunksA_shape (aid : Str) (st : StreamStA) (chunks : List Str) :
    PreservesShape aid st.messages (processChunksA aid st chunks).messages := by
  induction chunks generalizing st with
  | nil => exact preservesShape_refl aid st.messages
  | cons c cs ih =>
    have step : processChunksA aid st (c :: cs) =
        processChunksA aid (chunkStepA aid st c) cs := rfl
    rw [step]
    refine preservesShape_trans ?_ (ih (chunkStepA aid st c))
    rw [chunkStepA_eq]
    exact foldl_lineStepA_shape aid _ (st.fullResponse, st.messages)

theorem chunkStepB_shape (aid : Str) (s : Str × List Message) (c : Str) :
    PreservesShape aid s.2 (chunkStepB aid s c).2 := by
  unfold chunkStepB
  generalize ((splitNl c).filter (fun l => !isBlank l)) = lines
  induction lines generalizing s with
  | nil => exact preservesShape_refl aid s.2
  | cons l ls ih =>
    exact preservesShape_trans (applyData_shape aid s l) (ih (applyData aid s l))

theorem processChunksB_shape (aid : Str) (s : Str × List Message) (chunks : List Str) :
    PreservesShape aid s.2 (processChunksB aid s chunks).2 := by
  induction chunks generalizing s with
  | nil => exact preservesShape_refl aid s.2
  | cons c cs ih =>
    exact preservesShape_trans (chunkStepB_shape aid s c) (ih (chunkStepB aid s c))

/- ### Lemmas: the placeholder tracks the accumulated response -/

theorem updateMessages_fresh (aid full : Str) (base : List Message)
    (hfresh : ∀ m ∈ base, m.id ≠ aid) (ph : Message) (hid : ph.id = aid) :
    updateMessages aid full (base ++ [ph]) = base ++ [⟨aid, ph.role, full⟩] := by
  unfold updateMessages
  rw [List.map_append]
  congr 1
  · have hcongr : base.map (fun m => if m.id = aid then { m with content := full } else m) =
        base.map id :=
      List.map_congr_left (fun m hm => by simp [hfresh m hm])
    simpa using hcongr
  · simp [hid]

theorem applyData_fresh (aid : Str) (base : List Message) (hfresh : ∀ m ∈ base, m.id ≠ aid)
    (s : Str × List Message) (l : Str) (h : s.2 = base ++ [⟨aid, Role.assistant, s.1⟩]) :
    (applyData aid s l).2 = base ++ [⟨aid, Role.assistant, (applyData aid s l).1⟩] := by
  unfold applyData
  cases hj : jsonParse l with
  | none => exact h
  | some j =>
    cases hf : jsGetField j respKey with
    | none =>
      simp only [hf]
      exact h
    | some v =>
      simp only [hf]
      by_cases ht : jsTruthy v
      · rw [if_pos ht]
        simp only
        rw [h, updateMessages_fresh aid _ base hfresh ⟨aid, Role.assistant, s.1⟩ rfl]
      · rw [if_neg ht]
        exact h

theorem lineStepA_fresh (aid : Str) (base : List Message) (hfresh : ∀ m ∈ base, m.id ≠ aid)
    (s : Str × List Message) (l : Str) (h : s.2 = base ++ [⟨aid, Role.assistant, s.1⟩]) :
    (lineStepA aid s l).2 = base ++ [⟨aid, Role.assistant, (lineStepA aid s l).1⟩] := by
  unfold lineStepA
  by_cases hb : isBlank l
  · simp only [hb, if_pos]
    exact h
  · simp only [hb]
    exact applyData_fresh aid base hfresh s l h

theorem foldl_lineStepA_fresh (aid : Str) (base : List Message)
    (hfresh : ∀ m ∈ base, m.id ≠ aid) (lines : List Str) (s : Str × List Message)
    (h : s.2 = base ++ [⟨aid, Role.assistant, s.1⟩]) :
    (lines.foldl (lineStepA aid) s).2 =
      base ++ [⟨aid, Role.assistant, (lines.foldl (lineStepA aid) s).1⟩] := by
  induction lines generalizing s with
  | nil => exact h
  | cons l ls ih => exact ih (lineStepA aid s l) (lineStepA_fresh aid base hfresh s l h)

theorem processChunksA_fresh (aid : Str) (base : List Message)
    (hfresh : ∀ m ∈ base, m.id ≠ aid) (st : StreamStA) (chunks : List Str)
    (h : st.messages = base ++ [⟨aid, Role.assistant, st.fullResponse⟩]) :
    (processChunksA aid st chunks).messages =
      base ++ [⟨aid, Role.assistant, (processChunksA aid st chunks).fullResponse⟩] := by
  induction chunks generalizing st with
  | nil => exact h
  | cons c cs ih =>
    have step : processChunksA aid st (c :: cs) =
        processChunksA aid (chunkStepA aid st c) cs := rfl
    rw [step]
    refine ih (chunkStepA aid st c) ?_
    rw [chunkStepA_eq]
    exact foldl_lineStepA_fresh aid base hfresh _ (st.fullResponse, st.messages) h

theorem processChunksB_fresh (aid : Str) (base : List Message)
    (hfresh : ∀ m ∈ base, m.id ≠ aid) (s : Str × List Message) (chunks : List Str)
    (h : s.2 = base ++ [⟨aid, Role.assistant, s.1⟩]) :
    (processChunksB aid s chunks).2 =
      base ++ [⟨aid, Role.assistant, (processChunksB aid s chunks).1⟩] := by
  induction chunks generalizing s with
  | nil => exact h
  | cons c cs ih =>
    refine ih (chunkStepB aid s c) ?_
    unfold chunkStepB
    generalize ((splitNl c).filter (fun l => !isBlank l)) = lines
    induction lines generalizing s with
    | nil => exact h
    | cons l ls ih2 => exact ih2 (applyData aid s l) (applyData_fresh aid base hfresh s l h)

/- ### Lemmas: decimal rendering of identifiers is injective -/

theorem digitChar_inj : ∀ d1, d1 < 10 → ∀ d2, d2 < 10 → digitChar d1 = digitChar d2 → d1 = d2 := by
  decide

theorem map_digitChar_inj {l1 l2 : List Nat} (h1 : ∀ d ∈ l1, d < 10) (h2 : ∀ d ∈ l2, d < 10)
    (h : l1.map digitChar = l2.map digitChar) : l1 = l2 := by
  induction l1 generalizing l2 with
  | nil =>
    cases l2 with
    | nil => rfl
    | cons e es => simp at h
  | cons d ds ih =>
    cases l2 with
    | nil => simp at h
    | cons e es =>
      simp only [List.map_cons, List.cons.injEq] at h
      have hd := digitChar_inj d (h1 d (by simp)) e (h2 e (by simp)) h.1
      rw [hd, ih (fun x hx => h1 x (by simp [hx])) (fun x hx => h2 x (by simp [hx])) h.2]

theorem natToStrAux_eq (fuel : Nat) : ∀ n acc, n < fuel → 0 < n →
    natToStrAux fuel n acc = ((Nat.digits 10 n).map digitChar).reverse ++ acc := by
  induction fuel with
  | zero => intro n acc h _; omega
  | succ fuel ih =>
    intro n acc hlt hpos
    rw [natToStrAux]
    by_cases h10 : n < 10
    · rw [if_pos h10]
      have hdig : Nat.digits 10 n = [n] := by
        rw [Nat.digits_def' (by norm_num) hpos]
        have hq : n / 10 = 0 := Nat.div_eq_of_lt h10
        rw [hq]
        simp [Nat.mod_eq_of_lt h10]
      rw [hdig]
      simp
    · rw [if_neg h10]
      have hdiv_pos : 0 < n / 10 := Nat.div_pos (le_of_not_lt h10) (by norm_num)
      have hdiv_lt : n / 10 < fuel := by
        have := Nat.div_lt_self hpos (show 1 < 10 by norm_num)
        omega
      rw [ih (n / 10) _ hdiv_lt hdiv_pos]
      rw [Nat.digits_def' (show 1 < 10 by norm_num) hpos]
      simp

theorem natToStr_eq_digits (n : Nat) :
    natToStr n = if n = 0 then ['0'] else ((Nat.digits 10 n).map digitChar).reverse := by
  by_cases h : n = 0
  · rw [h]
    rfl
  · rw [if_neg h, natToStr, natToStrAux_eq (n + 1) n [] (by omega) (Nat.pos_of_ne_zero h)]
    simp

theorem natToStr_eq_zero_case (n : Nat) (hn : n ≠ 0) (h : natToStr n = ['0']) : False := by
  rw [natToStr_eq_digits, if_neg hn] at h
  have h2 : (Nat.digits 10 n).map digitChar = ['0'] := by
    have := congrArg List.reverse h
    simpa using this
  cases hd : Nat.digits 10 n with
  | nil => rw [hd] at h2; simp at h2
  | cons d ds =>
    rw [hd] at h2
    simp only [List.map_cons, List.cons.injEq] at h2
    have hds : ds = [] := by
      cases ds with
      | nil => rfl
      | cons x xs => simp at h2
    have hd10 : d < 10 := Nat.digits_lt_base (by norm_num) (by rw [hd]; simp)
    have hd0 : d = 0 := digitChar_inj d hd10 0 (by norm_num) h2.1
    have : n = 0 := by
      have hn2 := Nat.ofDigits_digits 10 n
      rw [hd, hds, hd0] at hn2
      simpa [Nat.ofDigits] using hn2.symm
    exact hn this

theorem natToStr_inj {m n : Nat} (h : natToStr m = natToStr n) : m = n := by
  by_cases hm : m = 0 <;> by_cases hn : n = 0
  · rw [hm, hn]
  · exfalso
    rw [hm] at h
    exact natToStr_eq_zero_case n hn (by rw [← h]; rfl)
  · exfalso
    rw [hn] at h
    exact natToStr_eq_zero_case m hm (by rw [h]; rfl)
  · rw [natToStr_eq_digits, natToStr_eq_digits, if_neg hm, if_neg hn] at h
    have h2 : (Nat.digits 10 m).map digitChar = (Nat.digits 10 n).map digitChar := by
      have := congrArg List.reverse h
      simpa using this
    have h3 : Nat.digits 10 m = Nat.digits 10 n :=
      map_digitChar_inj (fun d hd => Nat.digits_lt_base (by norm_num) hd)
        (fun d hd => Nat.digits_lt_base (by norm_num) hd) h2
    have hm2 := Nat.ofDigits_digits 10 m
    rw [h3, Nat.ofDigits_digits 10 n] at hm2
    exact hm2.symm

theorem foldl_applyData_fst (aid : Str) (lines : List Str) (s : Str × List Message) :
    (lines.foldl (applyData aid) s).1 = s.1 ++ strCat (lines.map deltaOfLineRaw) := by
  induction lines generalizing s with
  | nil => simp [strCat_nil]
  | cons l ls ih =>
    simp only [List.foldl_cons, List.map_cons, strCat_cons]
    rw [ih, applyData_fst, List.append_assoc]

theorem processChunksB_fst (aid : Str) (s : Str × List Message) (chunks : List Str) :
    (processChunksB aid s chunks).1 = s.1 ++ strCat (chunks.map deltasOfChunkB) := by
  induction chunks generalizing s with
  | nil => simp [processChunksB, strCat_nil]
  | cons c cs ih =>
    have step : processChunksB aid s (c :: cs) = processChunksB aid (chunkStepB aid s c) cs := rfl
    rw [step, ih]
    simp only [List.map_cons, strCat_cons]
    rw [chunkStepB, foldl_applyData_fst, List.append_assoc]
    rfl

/- ### Claim theorems -/

/-- Claim C7: a `send` whose input is empty or whitespace-only, or issued
while a request is already in flight (`isLoading` set, i.e. a session in the
Sending/Streaming states), is a no-op in both variants: the conversation,
the input cell and the loading flag are returned unchanged, whatever the
clock readings and the transport outcome would have been. -/
theorem c7_send_guard_noop (st : AppState) (t1 t2 t3 : Nat) (o : FetchOutcome)
    (h : isBlank st.input = true ∨ st.isLoading = true) :
    handleSendMessageA st t1 t2 t3 o = st ∧ handleSendMessageB st t1 t2 t3 o = st := by
  unfold handleSendMessageA handleSendMessageB
  rcases h with h | h
  · simp [h]
  · simp [h]

/-- Witness for C7: a whitespace-only input is rejected. -/
theorem c7_send_guard_noop_witness :
    handleSendMessageA ⟨[], " ".data, false⟩ 1 2 3 FetchOutcome.noReader =
        ⟨[], " ".data, false⟩ ∧
      handleSendMessageB ⟨[], " ".data, false⟩ 1 2 3 FetchOutcome.noReader =
        ⟨[], " ".data, false⟩ :=
  c7_send_guard_noop ⟨[], " ".data, false⟩ 1 2 3 FetchOutcome.noReader (Or.inl (by decide))

/-- Claim C6: a line that is not valid JSON, inserted anywhere in the line
stream, leaves the fold state (accumulated content and conversation) exactly
as without it, and the lines after it are still processed — the stream does
not abort.  Stated both for variant A's line loop (`lineStepA`) and for the
shared parse-and-apply body (`applyData`) that variant B folds over its
lines. -/
theorem c6_invalid_line_skipped (aid : Str) (s : Str × List Message)
    (pre post : List Str) (bad : Str) (h : jsonParse bad = none) :
    (pre ++ bad :: post).foldl (lineStepA aid) s = (pre ++ post).foldl (lineStepA aid) s ∧
      (pre ++ bad :: post).foldl (applyData aid) s = (pre ++ post).foldl (applyData aid) s := by
  have hstep : ∀ s' : Str × List Message, applyData aid s' bad = s' := by
    intro s'
    unfold applyData
    rw [h]
  have hstepA : ∀ s' : Str × List Message, lineStepA aid s' bad = s' := by
    intro s'
    unfold lineStepA
    by_cases hb : isBlank bad = true
    · rw [if_pos hb]
    · rw [if_neg hb]
      exact hstep s'
  constructor
  · rw [List.foldl_append, List.foldl_append, List.foldl_cons, hstepA]
  · rw [List.foldl_append, List.foldl_append, List.foldl_cons, hstep]

/-- Witness for C6: a malformed line between two valid frames is skipped. -/
theorem c6_invalid_line_skipped_witness :
    (["\x7b\"response\":\"foo\",\"done\":false\x7d".data, "\x7boops".data,
        "\x7b\"response\":\"bar\",\"done\":true\x7d".data].foldl
        (lineStepA "7".data) ([], [])) =
      (["\x7b\"response\":\"foo\",\"done\":false\x7d".data,
        "\x7b\"response\":\"bar\",\"done\":true\x7d".data].foldl
        (lineStepA "7".data) ([], [])) ∧
      (["\x7b\"response\":\"foo\",\"done\":false\x7d".data, "\x7boops".data,
        "\x7b\"response\":\"bar\",\"done\":true\x7d".data].foldl
        (applyData "7".data) ([], [])) =
      (["\x7b\"response\":\"foo\",\"done\":false\x7d".data,
        "\x7b\"response\":\"bar\",\"done\":true\x7d".data].foldl
        (applyData "7".data) ([], [])) :=
  c6_invalid_line_skipped "7".data ([], [])
    ["\x7b\"response\":\"foo\",\"done\":false\x7d".data]
    ["\x7b\"response\":\"bar\",\"done\":true\x7d".data] "\x7boops".data rfl

/-- Claim C10: a streaming content update modifies only messages bearing the
placeholder identifier.  Across the whole read loop of either variant: the
conversation keeps its length (no message added or removed), every position
keeps its identifier and role, and every position whose identifier differs
from the placeholder's keeps its entire message unchanged. -/
theorem c10_update_targets_only_placeholder (aid : Str) (st : StreamStA)
    (s : Str × List Message) (chunks : List Str) (i : Nat) :
    ((processChunksA aid st chunks).messages.length = st.messages.length ∧
      ((processChunksA aid st chunks).messages.getD i default).id =
        (st.messages.getD i default).id ∧
      ((processChunksA aid st chunks).messages.getD i default).role =
        (st.messages.getD i default).role ∧
      ((st.messages.getD i default).id ≠ aid →
        (processChunksA aid st chunks).messages.getD i default =
          st.messages.getD i default)) ∧
    ((processChunksB aid s chunks).2.length = s.2.length ∧
      ((processChunksB aid s chunks).2.getD i default).id = (s.2.getD i default).id ∧
      ((processChunksB aid s chunks).2.getD i default).role = (s.2.getD i default).role ∧
      ((s.2.getD i default).id ≠ aid →
        (processChunksB aid s chunks).2.getD i default = s.2.getD i default)) := by
  have hA := processChunksA_shape aid st chunks
  have hB := processChunksB_shape aid s chunks
  exact ⟨⟨hA.1, (hA.2 i).1, (hA.2 i).2.1, (hA.2 i).2.2⟩,
    ⟨hB.1, (hB.2 i).1, (hB.2 i).2.1, (hB.2 i).2.2⟩⟩

/-- Witness for C10: over a concrete stream the user message at position 0,
whose identifier differs from the placeholder's, is untouched. -/
theorem c10_update_targets_only_placeholder_witness :
    (processChunksA "1".data
        ⟨[], [], [⟨"0".data, Role.user, "q".data⟩, ⟨"1".data, Role.assistant, []⟩]⟩
        ["\x7b\"response\":\"x\",\"done\":true\x7d\n".data]).messages.getD 0 default =
      ⟨"0".data, Role.user, "q".data⟩ := by
  have h := c10_update_targets_only_placeholder "1".data
    ⟨[], [], [⟨"0".data, Role.user, "q".data⟩, ⟨"1".data, Role.assistant, []⟩]⟩
    ([], []) ["\x7b\"response\":\"x\",\"done\":true\x7d\n".data] 0
  exact h.1.2.2.2 (by decide)

/-- Claim C8: when the byte producer ends cleanly without any `done = true`
frame having been seen, the exchange still resolves like a success
(`Completed`): the loading flag is cleared, the `catch` path is not taken —
no error message is created, the last message is still the placeholder with
id `(t2 + 1).toString()` — and the placeholder keeps exactly the content
accumulated from the frames seen so far.  Proved for both variants; the
clock hypothesis `t1 ≤ t2` and the freshness of the placeholder id make the
two appended messages identifiable. -/
theorem c8_stream_end_without_terminal_completes
    (st : AppState) (t1 t2 t3 : Nat) (chunks : List Str)
    (hin : isBlank st.input = false) (hload : st.isLoading = false)
    (ht : t1 ≤ t2)
    (hfresh : ∀ m ∈ st.messages, m.id ≠ natToStr (t2 + 1))
    (hnodone : ∀ l ∈ extractedLinesA [] chunks, ∀ j, jsonParse l = some j →
      doneFlag j ≠ some true) :
    handleSendMessageA st t1 t2 t3 (FetchOutcome.stream chunks none) =
      ⟨(st.messages ++ [⟨natToStr t1, Role.user, st.input⟩]) ++
        [⟨natToStr (t2 + 1), Role.assistant,
          strCat ((linesRest (strCat chunks)).1.map deltaOfLineA)⟩], [], false⟩ ∧
    handleSendMessageB st t1 t2 t3 (FetchOutcome.stream chunks none) =
      ⟨(st.messages ++ [⟨natToStr t1, Role.user, st.input⟩]) ++
        [⟨natToStr (t2 + 1), Role.assistant, strCat (chunks.map deltasOfChunkB)⟩],
        [], false⟩ := by
  have hne : natToStr t1 ≠ natToStr (t2 + 1) := by
    intro he
    have := natToStr_inj he
    omega
  have hbase : ∀ m ∈ st.messages ++ [⟨natToStr t1, Role.user, st.input⟩],
      m.id ≠ natToStr (t2 + 1) := by
    intro m hm
    rcases List.mem_append.mp hm with hm | hm
    · exact hfresh m hm
    · rw [List.mem_singleton.mp hm]
      exact hne
  constructor
  · have hstep : handleSendMessageA st t1 t2 t3 (FetchOutcome.stream chunks none) =
        ⟨(processChunksA (natToStr (t2 + 1))
            ⟨[], [], (st.messages ++ [⟨natToStr t1, Role.user, st.input⟩]) ++
              [⟨natToStr (t2 + 1), Role.assistant, []⟩]⟩ chunks).messages, [], false⟩ := by
      unfold handleSendMessageA
      rw [if_neg (by simp [hin, hload])]
    rw [hstep,
      processChunksA_fresh (natToStr (t2 + 1)) _ hbase _ chunks rfl,
      processChunksA_eq (natToStr (t2 + 1)) [] [] _ chunks rfl]
    simp only [List.nil_append]
    rw [foldl_lineStepA_fst]
    simp
  · have hstep : handleSendMessageB st t1 t2 t3 (FetchOutcome.stream chunks none) =
        ⟨(processChunksB (natToStr (t2 + 1))
            ([], (st.messages ++ [⟨natToStr t1, Role.user, st.input⟩]) ++
              [⟨natToStr (t2 + 1), Role.assistant, []⟩]) chunks).2, [], false⟩ := by
      unfold handleSendMessageB
      rw [if_neg (by simp [hin, hload])]
    rw [hstep,
      processChunksB_fresh (natToStr (t2 + 1)) _ hbase _ chunks rfl,
      processChunksB_fst]
    simp

/-- Witness for C8: one frame without `done = true`, then the stream ends;
the exchange resolves with the accumulated content and no error. -/
theorem c8_stream_end_without_terminal_completes_witness :
    handleSendMessageA ⟨[], "Hello".data, false⟩ 1 1 5
        (FetchOutcome.stream ["\x7b\"response\":\"Hi\",\"done\":false\x7d\n".data] none) =
      ⟨([] ++ [⟨natToStr 1, Role.user, "Hello".data⟩]) ++
        [⟨natToStr (1 + 1), Role.assistant,
          strCat ((linesRest (strCat
            ["\x7b\"response\":\"Hi\",\"done\":false\x7d\n".data])).1.map deltaOfLineA)⟩],
        [], false⟩ ∧
    handleSendMessageB ⟨[], "Hello".data, false⟩ 1 1 5
        (FetchOutcome.stream ["\x7b\"response\":\"Hi\",\"done\":false\x7d\n".data] none) =
      ⟨([] ++ [⟨natToStr 1, Role.user, "Hello".data⟩]) ++
        [⟨natToStr (1 + 1), Role.assistant,
          strCat (["\x7b\"response\":\"Hi\",\"done\":false\x7d\n".data].map deltasOfChunkB)⟩],
        [], false⟩ := by
  refine c8_stream_end_without_terminal_completes ⟨[], "Hello".data, false⟩ 1 1 5
    ["\x7b\"response\":\"Hi\",\"done\":false\x7d\n".data]
    (by decide) rfl (by omega) (by simp) ?_
  intro l hl j hj
  have hlines : extractedLinesA [] ["\x7b\"response\":\"Hi\",\"done\":false\x7d\n".data] =
      ["\x7b\"response\":\"Hi\",\"done\":false\x7d".data] := by decide
  rw [hlines] at hl
  have hl2 := List.mem_singleton.mp hl
  subst hl2
  rw [show jsonParse "\x7b\"response\":\"Hi\",\"done\":false\x7d".data =
      some (Json.jobj [("response".data, Json.jstr "Hi".data),
        ("done".data, Json.jbool false)]) from rfl] at hj
  injection hj with hj2
  rw [← hj2]
  decide

theorem mem_base_fresh (ms : List Message) (t1 t2 : Nat) (ht : t1 ≤ t2) (content : Str)
    (hfresh : ∀ m ∈ ms, m.id ≠ natToStr (t2 + 1)) :
    ∀ m ∈ ms ++ [⟨natToStr t1, Role.user, content⟩], m.id ≠ natToStr (t2 + 1) := by
  intro m hm
  rcases List.mem_append.mp hm with hm | hm
  · exact hfresh m hm
  · rw [List.mem_singleton.mp hm]
    intro he
    have := natToStr_inj he
    omega

/-- Claim C3 (amended): in the first variant every `Errored` outcome —
transport failure, non-success HTTP status, or a mid-stream read failure —
replaces the placeholder, leaving the conversation as the original messages
plus exactly one user message and exactly one assistant message, the latter
bearing the error text; no empty placeholder remains, and in the HTTP-error
scenario the exchange adds exactly two messages (one user + one assistant).
The second variant violates the claim (see the counterexample): it appends
the error message and keeps the empty placeholder. -/
theorem c3_errored_exactly_one_assistant_variantA
    (st : AppState) (t1 t2 t3 : Nat) (o : FetchOutcome)
    (hin : isBlank st.input = false) (hload : st.isLoading = false)
    (ht : t1 ≤ t2)
    (hfresh : ∀ m ∈ st.messages, m.id ≠ natToStr (t2 + 1))
    (herr : isErrorOutcome o = true) :
    handleSendMessageA st t1 t2 t3 o =
      ⟨st.messages ++ [⟨natToStr t1, Role.user, st.input⟩,
        ⟨natToStr t3, Role.assistant, "âŒ Error: ".data ++ errMsgOf o⟩], [], false⟩ ∧
    (handleSendMessageA st t1 t2 t3 o).messages.length = st.messages.length + 2 := by
  have hbase := mem_base_fresh st.messages t1 t2 ht st.input hfresh
  have h1 : handleSendMessageA st t1 t2 t3 o =
      ⟨st.messages ++ [⟨natToStr t1, Role.user, st.input⟩,
        ⟨natToStr t3, Role.assistant, "âŒ Error: ".data ++ errMsgOf o⟩], [], false⟩ := by
    unfold handleSendMessageA
    rw [if_neg (by simp [hin, hload])]
    cases o with
    | transportFail msg =>
      simp only [errMsgOf, errReplaceA]
      rw [List.dropLast_concat]
      simp
    | httpError stx =>
      simp only [errMsgOf, errReplaceA]
      rw [List.dropLast_concat]
      simp
    | noReader => simp [isErrorOutcome] at herr
    | stream chunks failMsg =>
      cases failMsg with
      | none => simp [isErrorOutcome] at herr
      | some msg =>
        simp only [errMsgOf, errReplaceA]
        rw [processChunksA_fresh (natToStr (t2 + 1)) _ hbase _ chunks rfl,
          List.dropLast_concat]
        simp
  exact ⟨h1, by rw [h1]; simp⟩

/-- Witness for C3: the HTTP 500 scenario in the first variant. -/
theorem c3_errored_exactly_one_assistant_variantA_witness :
    handleSendMessageA ⟨[], "hi".data, false⟩ 10 10 12
        (FetchOutcome.httpError "Internal Server Error".data) =
      ⟨[] ++ [⟨natToStr 10, Role.user, "hi".data⟩,
        ⟨natToStr 12, Role.assistant, "âŒ Error: ".data ++
          errMsgOf (FetchOutcome.httpError "Internal Server Error".data)⟩], [], false⟩ ∧
      (handleSendMessageA ⟨[], "hi".data, false⟩ 10 10 12
        (FetchOutcome.httpError "Internal Server Error".data)).messages.length =
        ([] : List Message).length + 2 :=
  c3_errored_exactly_one_assistant_variantA ⟨[], "hi".data, false⟩ 10 10 12
    (FetchOutcome.httpError "Internal Server Error".data)
    (by decide) rfl (by omega) (by simp) rfl

/-- Claim C3 counterexample: in the second variant an HTTP error APPENDS the
error message.  After one failed exchange from an empty conversation the log
has three messages, two of them assistant messages, and the middle one is
the still-empty placeholder — contradicting "exactly one assistant message",
"no lingering empty placeholder" and "conversation length unchanged (one
user plus one assistant)". -/
theorem c3_variantB_error_leaves_placeholder :
    (handleSendMessageB ⟨[], "hi".data, false⟩ 10 10 12
        (FetchOutcome.httpError "Internal Server Error".data)).messages =
      [⟨natToStr 10, Role.user, "hi".data⟩,
       ⟨natToStr 11, Role.assistant, []⟩,
       ⟨natToStr 14, Role.assistant,
         "Error: ".data ++ ("API error: ".data ++ "Internal Server Error".data)⟩] ∧
    (handleSendMessageB ⟨[], "hi".data, false⟩ 10 10 12
        (FetchOutcome.httpError "Internal Server Error".data)).messages.length ≠ 2 ∧
    ((handleSendMessageB ⟨[], "hi".data, false⟩ 10 10 12
        (FetchOutcome.httpError "Internal Server Error".data)).messages.filter
        (fun m => m.role == Role.assistant)).length = 2 ∧
    (handleSendMessageB ⟨[], "hi".data, false⟩ 10 10 12
        (FetchOutcome.httpError "Internal Server Error".data)).messages.getD 1 default =
      ⟨natToStr 11, Role.assistant, []⟩ := by
  refine ⟨by decide, by decide, by decide, by decide⟩

theorem linesRest_terminated (lines : List Str) (h : ∀ l ∈ lines, noNl l = true) :
    linesRest (strCat (lines.map (fun l => l ++ ['\n']))) = (lines, []) := by
  induction lines with
  | nil => simp [strCat_nil, linesRest]
  | cons l ls ih =>
    simp only [List.map_cons, strCat_cons]
    rw [linesRest_append (l ++ ['\n']) _]
    have h1 : linesRest (l ++ ['\n']) = ([l], []) := by
      rw [linesRest_append l ['\n'], linesRest_noNl l (h l (by simp))]
      simp [linesRest, mergeLR]
    rw [h1, ih (fun x hx => h x (by simp [hx]))]
    cases ls <;> simp [mergeLR]

theorem respStr_get {j : Json} {d : Str} (h : respStr j = some d) :
    jsGetField j respKey = some (Json.jstr d) := by
  unfold respStr at h
  cases hf : jsGetField j respKey with
  | none => rw [hf] at h; simp at h
  | some v =>
    rw [hf] at h
    cases v <;> simp_all

theorem validLine_facts {l d : Str} {dn : Bool} (h : validLine l d dn = true) :
    isBlank l = false ∧ noNl l = true ∧ deltaOfLineA l = d := by
  unfold validLine at h
  cases hj : jsonParse l with
  | none => rw [hj] at h; simp at h
  | some j =>
    rw [hj] at h
    simp only [Bool.and_eq_true, Bool.not_eq_true'] at h
    obtain ⟨⟨hb, hn⟩, hresp, _⟩ := h
    have hresp2 : respStr j = some d := eq_of_beq hresp
    refine ⟨hb, hn, ?_⟩
    unfold deltaOfLineA deltaOfLineRaw respDelta
    rw [if_neg (by simp [hb]), hj]
    simp only [respStr_get hresp2]
    cases d with
    | nil => simp [jsTruthy]
    | cons c cs => simp [jsTruthy, jsToStr]

theorem validLines_deltas {lines : List Str} {frames : List (Str × Bool)}
    (h : List.Forall₂ (fun l p => validLine l p.1 p.2 = true) lines frames) :
    lines.map deltaOfLineA = frames.map Prod.fst ∧ ∀ l ∈ lines, noNl l = true := by
  induction h with
  | nil => simp
  | cons hlp _ ih =>
    obtain ⟨_, hn, hd⟩ := validLine_facts hlp
    refine ⟨by simp [hd, ih.1], ?_⟩
    intro x hx
    rcases List.mem_cons.mp hx with hx | hx
    · rw [hx]; exact hn
    · exact ih.2 x hx

theorem handleA_stream_none_eq (st : AppState) (t1 t2 t3 : Nat) (chunks : List Str)
    (hin : isBlank st.input = false) (hload : st.isLoading = false) (ht : t1 ≤ t2)
    (hfresh : ∀ m ∈ st.messages, m.id ≠ natToStr (t2 + 1)) :
    handleSendMessageA st t1 t2 t3 (FetchOutcome.stream chunks none) =
      ⟨(st.messages ++ [⟨natToStr t1, Role.user, st.input⟩]) ++
        [⟨natToStr (t2 + 1), Role.assistant,
          strCat ((linesRest (strCat chunks)).1.map deltaOfLineA)⟩], [], false⟩ := by
  have hbase := mem_base_fresh st.messages t1 t2 ht st.input hfresh
  have hstep : handleSendMessageA st t1 t2 t3 (FetchOutcome.stream chunks none) =
      ⟨(processChunksA (natToStr (t2 + 1))
          ⟨[], [], (st.messages ++ [⟨natToStr t1, Role.user, st.input⟩]) ++
            [⟨natToStr (t2 + 1), Role.assistant, []⟩]⟩ chunks).messages, [], false⟩ := by
    unfold handleSendMessageA
    rw [if_neg (by simp [hin, hload])]
  rw [hstep,
    processChunksA_fresh (natToStr (t2 + 1)) _ hbase _ chunks rfl,
    processChunksA_eq (natToStr (t2 + 1)) [] [] _ chunks rfl]
  simp only [List.nil_append]
  rw [foldl_lineStepA_fst]
  simp

/-- Claim C1 (amended): in the buffered first variant, for any sequence of
wire frames carrying string deltas d1..dn with the terminal flag true on the
last frame, and ANY chunking of the newline-terminated byte text, the final
content of the assistant placeholder is exactly d1 ++ ... ++ dn, and the
whole final state is pinned down (original messages, the user message, the
filled placeholder, cleared input, cleared loading flag).  The second
variant violates the claim for chunkings that split a frame line: see the
counterexample. -/
theorem c1_concatenation_variantA
    (st : AppState) (t1 t2 t3 : Nat) (lines : List Str) (frames : List (Str × Bool))
    (chunks : List Str)
    (hin : isBlank st.input = false) (hload : st.isLoading = false) (ht : t1 ≤ t2)
    (hfresh : ∀ m ∈ st.messages, m.id ≠ natToStr (t2 + 1))
    (hv : List.Forall₂ (fun l p => validLine l p.1 p.2 = true) lines frames)
    (hterm : (frames.map Prod.snd).getLast? = some true)
    (hchunks : strCat chunks = strCat (lines.map (fun l => l ++ ['\n']))) :
    handleSendMessageA st t1 t2 t3 (FetchOutcome.stream chunks none) =
      ⟨(st.messages ++ [⟨natToStr t1, Role.user, st.input⟩]) ++
        [⟨natToStr (t2 + 1), Role.assistant, strCat (frames.map Prod.fst)⟩],
        [], false⟩ := by
  rw [handleA_stream_none_eq st t1 t2 t3 chunks hin hload ht hfresh]
  obtain ⟨hmap, hnl⟩ := validLines_deltas hv
  rw [hchunks, linesRest_terminated lines hnl]
  simp only
  rw [hmap]

/-- Witness for C1: deltas "foo" and "bar" with a terminal last frame,
delivered in a chunking that splits the first frame line mid-JSON. -/
theorem c1_concatenation_variantA_witness :
    handleSendMessageA ⟨[], "Hello".data, false⟩ 3 3 9
        (FetchOutcome.stream ["\x7b\"response\":\"foo\"".data,
          ",\"done\":false\x7d\n\x7b\"response\":\"bar\",\"done\":true\x7d\n".data] none) =
      ⟨([] ++ [⟨natToStr 3, Role.user, "Hello".data⟩]) ++
        [⟨natToStr (3 + 1), Role.assistant,
          strCat ([("foo".data, false), ("bar".data, true)].map Prod.fst)⟩], [], false⟩ :=
  c1_concatenation_variantA ⟨[], "Hello".data, false⟩ 3 3 9
    ["\x7b\"response\":\"foo\",\"done\":false\x7d".data,
     "\x7b\"response\":\"bar\",\"done\":true\x7d".data]
    [("foo".data, false), ("bar".data, true)]
    ["\x7b\"response\":\"foo\"".data,
     ",\"done\":false\x7d\n\x7b\"response\":\"bar\",\"done\":true\x7d\n".data]
    (by decide) rfl (by omega) (by simp)
    (List.Forall₂.cons (by decide) (List.Forall₂.cons (by decide) List.Forall₂.nil))
    (by decide) (by decide)

/-- Claim C1 counterexample: the second variant has no carry-over buffer, so
the concatenation property fails for chunkings that split a line.  The two
chunks below concatenate to exactly the two newline-terminated frame lines
with deltas "a" and "b" (terminal flag true on the last), yet after the
stream the placeholder content is "b", not "a" ++ "b": the first delta is
lost. -/
theorem c1_chunking_breaks_concat_in_variantB :
    strCat ["\x7b\"response\":\"a\"".data,
        ",\"done\":false\x7d\n\x7b\"response\":\"b\",\"done\":true\x7d\n".data] =
      strCat (["\x7b\"response\":\"a\",\"done\":false\x7d".data,
        "\x7b\"response\":\"b\",\"done\":true\x7d".data].map (fun l => l ++ ['\n'])) ∧
    validLine "\x7b\"response\":\"a\",\"done\":false\x7d".data "a".data false = true ∧
    validLine "\x7b\"response\":\"b\",\"done\":true\x7d".data "b".data true = true ∧
    (handleSendMessageB ⟨[], "q".data, false⟩ 0 0 0
        (FetchOutcome.stream ["\x7b\"response\":\"a\"".data,
          ",\"done\":false\x7d\n\x7b\"response\":\"b\",\"done\":true\x7d\n".data]
          none)).messages.getD 1 default =
      ⟨natToStr 1, Role.assistant, "b".data⟩ ∧
    "b".data ≠ "a".data ++ "b".data := by
  refine ⟨by decide, by decide, by decide, by decide, by decide⟩

/-- Claim C2 (amended): the buffered first variant is chunking-invariant:
any two chunkings of the same total decoded text yield the same sequence of
decoded frames and the same final decoder state (carry-over buffer,
accumulated content, and conversation) — in particular a JSON line split
across two chunks is reassembled into one frame.  The second variant is NOT
chunking-invariant: see the counterexample. -/
theorem c2_chunk_invariance_variantA (aid fr : Str) (ms : List Message)
    (chunks1 chunks2 : List Str) (h : strCat chunks1 = strCat chunks2) :
    decodedFramesA chunks1 = decodedFramesA chunks2 ∧
      processChunksA aid ⟨[], fr, ms⟩ chunks1 = processChunksA aid ⟨[], fr, ms⟩ chunks2 := by
  constructor
  · unfold decodedFramesA
    rw [extractedLinesA_eq [] chunks1 rfl, extractedLinesA_eq [] chunks2 rfl]
    simp only [List.nil_append, h]
  · rw [processChunksA_eq aid [] fr ms chunks1 rfl, processChunksA_eq aid [] fr ms chunks2 rfl]
    simp only [List.nil_append, h]

/-- Witness for C2: the spec's reassembly example — the stream delivered
whole versus split in the middle of the first frame line decodes to the
same frames and the same final state in the first variant. -/
theorem c2_chunk_invariance_variantA_witness :
    decodedFramesA
        ["\x7b\"response\":\"foo\",\"done\":false\x7d\n\x7b\"response\":\"bar\",\"done\":true\x7d\n".data] =
      decodedFramesA ["\x7b\"response\":\"foo\"".data,
        ",\"done\":false\x7d\n\x7b\"response\":\"bar\",\"done\":true\x7d\n".data] ∧
      processChunksA "7".data ⟨[], [], []⟩
          ["\x7b\"response\":\"foo\",\"done\":false\x7d\n\x7b\"response\":\"bar\",\"done\":true\x7d\n".data] =
        processChunksA "7".data ⟨[], [], []⟩ ["\x7b\"response\":\"foo\"".data,
          ",\"done\":false\x7d\n\x7b\"response\":\"bar\",\"done\":true\x7d\n".data] :=
  c2_chunk_invariance_variantA "7".data [] []
    ["\x7b\"response\":\"foo\",\"done\":false\x7d\n\x7b\"response\":\"bar\",\"done\":true\x7d\n".data]
    ["\x7b\"response\":\"foo\"".data,
     ",\"done\":false\x7d\n\x7b\"response\":\"bar\",\"done\":true\x7d\n".data]
    (by decide)

/-- Claim C2 counterexample: the second variant decodes different frames and
different final content from two chunkings of the same total byte text —
the spec's own reassembly example.  Delivered whole, it decodes two frames
and accumulates "foobar"; split mid-line, both fragments of the first line
fail to parse, so it decodes one frame and accumulates only "bar". -/
theorem c2_variantB_not_chunk_invariant :
    strCat ["\x7b\"response\":\"foo\",\"done\":false\x7d\n\x7b\"response\":\"bar\",\"done\":true\x7d\n".data] =
      strCat ["\x7b\"response\":\"foo\"".data,
        ",\"done\":false\x7d\n\x7b\"response\":\"bar\",\"done\":true\x7d\n".data] ∧
    (decodedFramesB
        ["\x7b\"response\":\"foo\",\"done\":false\x7d\n\x7b\"response\":\"bar\",\"done\":true\x7d\n".data]).length = 2 ∧
    (decodedFramesB ["\x7b\"response\":\"foo\"".data,
        ",\"done\":false\x7d\n\x7b\"response\":\"bar\",\"done\":true\x7d\n".data]).length = 1 ∧
    (processChunksB "7".data ([], [])
        ["\x7b\"response\":\"foo\",\"done\":false\x7d\n\x7b\"response\":\"bar\",\"done\":true\x7d\n".data]).1 =
      "foobar".data ∧
    (processChunksB "7".data ([], []) ["\x7b\"response\":\"foo\"".data,
        ",\"done\":false\x7d\n\x7b\"response\":\"bar\",\"done\":true\x7d\n".data]).1 =
      "bar".data ∧
    "foobar".data ≠ "bar".data := by
  refine ⟨by decide, by decide, by decide, by decide, by decide, by decide⟩

/-- Claim C4 counterexample: the code never inspects the `done` flag, so a
frame arriving after a `done = true` frame is still processed and still
updates the content.  In the stream below the first frame is a wire-valid
terminal frame with delta "x", yet the following frame's delta "y" is also
accumulated: the final content is "xy", not "x" as the claim requires. -/
theorem c4_frames_after_done_processed :
    validLine "\x7b\"response\":\"x\",\"done\":true\x7d".data "x".data true = true ∧
    (processChunksA "1".data ⟨[], [], [⟨"1".data, Role.assistant, []⟩]⟩
        ["\x7b\"response\":\"x\",\"done\":true\x7d\n\x7b\"response\":\"y\",\"done\":false\x7d\n".data]).fullResponse =
      "xy".data ∧
    "xy".data ≠ "x".data := by
  refine ⟨by decide, by decide, by decide⟩

/-- Claim C4 (amended): the terminal flag has no effect on processing —
frames after a `done = true` frame are folded like any others, so the
terminal frame is the last effective frame only because the server sends it
last.  For any wire-valid terminal frame line `l1` with delta `d1`, the
accumulated content after `l1 :: rest` extends past `d1` by every delta of
`rest`. -/
theorem c4_post_terminal_frames_still_update (aid : Str) (s : Str × List Message)
    (l1 d1 : Str) (rest : List Str) (h1 : validLine l1 d1 true = true) :
    ((l1 :: rest).foldl (lineStepA aid) s).1 =
      s.1 ++ d1 ++ strCat (rest.map deltaOfLineA) := by
  rw [foldl_lineStepA_fst]
  obtain ⟨_, _, hd⟩ := validLine_facts h1
  simp [strCat_cons, hd, List.append_assoc]

/-- Witness for C4: a non-terminal frame following the terminal frame still
contributes its delta. -/
theorem c4_post_terminal_frames_still_update_witness :
    (["\x7b\"response\":\"x\",\"done\":true\x7d".data,
        "\x7b\"response\":\"y\",\"done\":false\x7d".data].foldl
        (lineStepA "1".data) ([], [])).1 =
      [] ++ "x".data ++
        strCat (["\x7b\"response\":\"y\",\"done\":false\x7d".data].map deltaOfLineA) :=
  c4_post_terminal_frames_still_update "1".data ([], [])
    "\x7b\"response\":\"x\",\"done\":true\x7d".data "x".data
    ["\x7b\"response\":\"y\",\"done\":false\x7d".data] (by decide)

/-- Claim C5 counterexample: the delta is read only from `response`, never
from `message.content`.  The frame below carries `message.content = "A"`
and `response = "B"`: the spec's selection rule (`specContentDelta`,
modelled from the spec's words) picks "A", but the loop accumulates "B";
and a frame carrying its text ONLY in `message.content` contributes
nothing. -/
theorem c5_message_content_ignored_cex :
    ((jsonParse "\x7b\"message\":\x7b\"role\":\"assistant\",\"content\":\"A\"\x7d,\"response\":\"B\",\"done\":false\x7d".data).map
        specContentDelta) = some (some "A".data) ∧
    (["\x7b\"message\":\x7b\"role\":\"assistant\",\"content\":\"A\"\x7d,\"response\":\"B\",\"done\":false\x7d".data].foldl
        (lineStepA "1".data) ([], [])).1 = "B".data ∧
    "B".data ≠ "A".data ∧
    ((jsonParse "\x7b\"message\":\x7b\"role\":\"assistant\",\"content\":\"A\"\x7d,\"done\":false\x7d".data).map
        specContentDelta) = some (some "A".data) ∧
    (["\x7b\"message\":\x7b\"role\":\"assistant\",\"content\":\"A\"\x7d,\"done\":false\x7d".data].foldl
        (lineStepA "1".data) ([], [])).1 = [] := by
  refine ⟨by decide, by decide, by decide, by decide, by decide⟩

/-- Claim C5 (amended): the accumulated content delta is read solely from
the frame's `response` field; the `message` object is never consulted.  Any
two parsed non-blank frame lines whose `response` fields agree are
processed identically, whatever their `message` fields hold. -/
theorem c5_delta_from_response_only (aid : Str) (s : Str × List Message)
    (l1 l2 : Str) (j1 j2 : Json)
    (h1 : jsonParse l1 = some j1) (h2 : jsonParse l2 = some j2)
    (hb1 : isBlank l1 = false) (hb2 : isBlank l2 = false)
    (hresp : jsGetField j1 respKey = jsGetField j2 respKey) :
    lineStepA aid s l1 = lineStepA aid s l2 := by
  unfold lineStepA applyData
  rw [if_neg (by simp [hb1]), if_neg (by simp [hb2]), h1, h2]
  simp only [hresp]

/-- Witness for C5: a frame with and a frame without a `message` object,
with the same `response`, take the same step. -/
theorem c5_delta_from_response_only_witness :
    lineStepA "1".data ([], []) "\x7b\"response\":\"B\",\"done\":false\x7d".data =
      lineStepA "1".data ([], [])
        "\x7b\"message\":\x7b\"role\":\"assistant\",\"content\":\"A\"\x7d,\"response\":\"B\",\"done\":false\x7d".data :=
  c5_delta_from_response_only "1".data ([], [])
    "\x7b\"response\":\"B\",\"done\":false\x7d".data
    "\x7b\"message\":\x7b\"role\":\"assistant\",\"content\":\"A\"\x7d,\"response\":\"B\",\"done\":false\x7d".data
    (Json.jobj [("response".data, Json.jstr "B".data), ("done".data, Json.jbool false)])
    (Json.jobj [("message".data, Json.jobj [("role".data, Json.jstr "assistant".data),
        ("content".data, Json.jstr "A".data)]),
      ("response".data, Json.jstr "B".data), ("done".data, Json.jbool false)])
    rfl rfl (by decide) (by decide) rfl

/- ### Lemmas: identifiers through one exchange and a run of exchanges -/

theorem updateMessages_map_id (aid full : Str) (ms : List Message) :
    (updateMessages aid full ms).map Message.id = ms.map Message.id := by
  unfold updateMessages
  rw [List.map_map]
  exact List.map_congr_left (fun m _ => by by_cases h : m.id = aid <;> simp [h])

theorem applyData_map_id (aid : Str) (s : Str × List Message) (l : Str) :
    (applyData aid s l).2.map Message.id = s.2.map Message.id := by
  unfold applyData
  cases hj : jsonParse l with
  | none => rfl
  | some j =>
    cases hf : jsGetField j respKey with
    | none => simp only [hf]
    | some v =>
      simp only [hf]
      by_cases ht : jsTruthy v
      · rw [if_pos ht]
        exact updateMessages_map_id aid _ s.2
      · rw [if_neg ht]

theorem lineStepA_map_id (aid : Str) (s : Str × List Message) (l : Str) :
    (lineStepA aid s l).2.map Message.id = s.2.map Message.id := by
  unfold lineStepA
  by_cases hb : isBlank l = true
  · rw [if_pos hb]
  · rw [if_neg hb]
    exact applyData_map_id aid s l

theorem foldl_lineStepA_map_id (aid : Str) (lines : List Str) (s : Str × List Message) :
    (lines.foldl (lineStepA aid) s).2.map Message.id = s.2.map Message.id := by
  induction lines generalizing s with
  | nil => rfl
  | cons l ls ih => rw [List.foldl_cons, ih (lineStepA aid s l), lineStepA_map_id]

theorem processChunksA_map_id (aid : Str) (st : StreamStA) (chunks : List Str) :
    (processChunksA aid st chunks).messages.map Message.id =
      st.messages.map Message.id := by
  induction chunks generalizing st with
  | nil => rfl
  | cons c cs ih =>
    have step : processChunksA aid st (c :: cs) =
        processChunksA aid (chunkStepA aid st c) cs := rfl
    rw [step, ih (chunkStepA aid st c), chunkStepA_eq]
    exact foldl_lineStepA_map_id aid _ (st.fullResponse, st.messages)

theorem c9aux_handleA_ids (st : AppState) (t1 t2 t3 : Nat) (o : FetchOutcome)
    (hload : st.isLoading = false) (hb : isBlank st.input = false) :
    ((handleSendMessageA st t1 t2 t3 o).messages.map Message.id =
        st.messages.map Message.id ++ [natToStr t1, natToStr (t2 + 1)] ∨
      (handleSendMessageA st t1 t2 t3 o).messages.map Message.id =
        st.messages.map Message.id ++ [natToStr t1, natToStr t3]) ∧
    (handleSendMessageA st t1 t2 t3 o).isLoading = false := by
  unfold handleSendMessageA
  rw [if_neg (by simp [hb, hload])]
  cases o with
  | transportFail msg =>
    refine ⟨Or.inr ?_, rfl⟩
    simp [errReplaceA, List.dropLast_concat]
  | httpError stx =>
    refine ⟨Or.inr ?_, rfl⟩
    simp [errReplaceA, List.dropLast_concat]
  | noReader =>
    refine ⟨Or.inl ?_, rfl⟩
    simp
  | stream chunks failMsg =>
    cases failMsg with
    | none =>
      refine ⟨Or.inl ?_, rfl⟩
      simp only [processChunksA_map_id]
      simp
    | some msg =>
      refine ⟨Or.inr ?_, rfl⟩
      simp only [errReplaceA, List.map_append]
      rw [List.map_dropLast, processChunksA_map_id]
      simp [List.dropLast_concat]

theorem runA_ids (xs : List ExchangeIn) :
    ∀ (st : AppState) (b : Nat) (ns : List Nat),
      st.isLoading = false →
      st.messages.map Message.id = ns.map natToStr →
      ns.Pairwise (· < ·) →
      (∀ n ∈ ns, n < b) →
      clockOk b xs = true →
      ∃ ns' : List Nat,
        (runA st xs).messages.map Message.id = ns'.map natToStr ∧
        ns'.Pairwise (· < ·) ∧ (runA st xs).isLoading = false := by
  induction xs with
  | nil =>
    intro st b ns h1 h2 h3 _ _
    exact ⟨ns, h2, h3, h1⟩
  | cons x xs ih =>
    intro st b ns h1 h2 h3 h4 h5
    simp only [clockOk, Bool.and_eq_true, decide_eq_true_eq] at h5
    obtain ⟨⟨⟨hb1, h12⟩, h23⟩, hrest⟩ := h5
    have hrun : runA st (x :: xs) =
        runA (handleSendMessageA ⟨st.messages, x.content, st.isLoading⟩ x.t1 x.t2 x.t3
          x.outcome) xs := rfl
    rw [hrun]
    by_cases hblank : isBlank x.content = true
    · have hnoop : handleSendMessageA ⟨st.messages, x.content, st.isLoading⟩ x.t1 x.t2 x.t3
          x.outcome = ⟨st.messages, x.content, st.isLoading⟩ := by
        unfold handleSendMessageA
        rw [if_pos (by simp [hblank])]
      rw [hnoop]
      exact ih ⟨st.messages, x.content, st.isLoading⟩ (x.t3 + 1) ns h1 h2 h3
        (fun n hn => by have := h4 n hn; omega) hrest
    · simp only [Bool.not_eq_true] at hblank
      have hmid := c9aux_handleA_ids ⟨st.messages, x.content, st.isLoading⟩ x.t1 x.t2 x.t3
        x.outcome h1 hblank
      rcases hmid.1 with hids | hids
      · refine ih _ (x.t3 + 1) (ns ++ [x.t1, x.t2 + 1]) hmid.2 ?_ ?_ ?_ hrest
        · rw [hids, h2]
          simp
        · rw [List.pairwise_append]
          refine ⟨h3, by simp; omega, ?_⟩
          intro a ha bb hbb
          have h4a := h4 a ha
          simp only [List.mem_cons, List.mem_singleton] at hbb
          rcases hbb with rfl | hbb
          · omega
          · rcases hbb with rfl | hbb
            · omega
            · simp at hbb
        · intro n hn
          rcases List.mem_append.mp hn with hn | hn
          · have := h4 n hn
            omega
          · simp only [List.mem_cons, List.mem_singleton] at hn
            rcases hn with rfl | hn
            · omega
            · rcases hn with rfl | hn
              · omega
              · simp at hn
      · refine ih _ (x.t3 + 1) (ns ++ [x.t1, x.t3]) hmid.2 ?_ ?_ ?_ hrest
        · rw [hids, h2]
          simp
        · rw [List.pairwise_append]
          refine ⟨h3, by simp; omega, ?_⟩
          intro a ha bb hbb
          have h4a := h4 a ha
          simp only [List.mem_cons, List.mem_singleton] at hbb
          rcases hbb with rfl | hbb
          · omega
          · rcases hbb with rfl | hbb
            · omega
            · simp at hbb
        · intro n hn
          rcases List.mem_append.mp hn with hn | hn
          · have := h4 n hn
            omega
          · simp only [List.mem_cons, List.mem_singleton] at hn
            rcases hn with rfl | hn
            · omega
            · rcases hn with rfl | hn
              · omega
              · simp at hn

/-- Claim C9 counterexample: identifiers come from `Date.now()`, which can
return the same millisecond on successive calls.  With the clock stalled at
5, a single errored exchange of the first variant leaves two distinct
messages — the user message and the error replacement — bearing the SAME
identifier: appended identifiers are not unique. -/
theorem c9_duplicate_ids_same_millisecond :
    (handleSendMessageA ⟨[], "hi".data, false⟩ 5 5 5
        (FetchOutcome.transportFail "Failed to fetch".data)).messages =
      [⟨natToStr 5, Role.user, "hi".data⟩,
       ⟨natToStr 5, Role.assistant, "âŒ Error: ".data ++ "Failed to fetch".data⟩] ∧
    ((handleSendMessageA ⟨[], "hi".data, false⟩ 5 5 5
        (FetchOutcome.transportFail "Failed to fetch".data)).messages.getD 0 default).id =
      ((handleSendMessageA ⟨[], "hi".data, false⟩ 5 5 5
        (FetchOutcome.transportFail "Failed to fetch".data)).messages.getD 1 default).id ∧
    (handleSendMessageA ⟨[], "hi".data, false⟩ 5 5 5
        (FetchOutcome.transportFail "Failed to fetch".data)).messages.getD 0 default ≠
      (handleSendMessageA ⟨[], "hi".data, false⟩ 5 5 5
        (FetchOutcome.transportFail "Failed to fetch".data)).messages.getD 1 default := by
  refine ⟨by decide, by decide, by decide⟩

/-- Claim C9 (amended): identifiers derive from the millisecond clock (user
message: `t1`, assistant placeholder: `t2 + 1`, error replacement: `t3` in
the first variant), so they are unique only under a clock discipline: the
readings of one exchange satisfy `t1 ≤ t2` and `t2 + 1 ≤ t3`, and each
exchange starts strictly after the previous one's last reading (`clockOk`).
Under that discipline, over any number of consecutive exchanges of the
first variant, the identifiers in the conversation are the decimal
renderings of a strictly increasing sequence of clock values — ordered by
creation — and hence pairwise distinct.  With a stalled clock they collide
(see the counterexample). -/
theorem c9_ids_distinct_with_advancing_clock (xs : List ExchangeIn)
    (hclock : clockOk 0 xs = true) :
    ∃ ns : List Nat,
      (runA ⟨[], [], false⟩ xs).messages.map Message.id = ns.map natToStr ∧
      ns.Pairwise (· < ·) ∧
      ((runA ⟨[], [], false⟩ xs).messages.map Message.id).Pairwise (· ≠ ·) := by
  obtain ⟨ns, hmap, hpw, _⟩ :=
    runA_ids xs ⟨[], [], false⟩ 0 [] rfl rfl (by simp) (by simp) hclock
  refine ⟨ns, hmap, hpw, ?_⟩
  rw [hmap]
  exact hpw.map natToStr
    (fun a b hab heq => absurd (natToStr_inj heq) (Nat.ne_of_lt hab))

/-- Witness for C9: two exchanges (one success, one transport failure) under
an advancing clock. -/
theorem c9_ids_distinct_with_advancing_clock_witness :
    ∃ ns : List Nat,
      (runA ⟨[], [], false⟩
          [⟨"a".data, 10, 10, 12, FetchOutcome.noReader⟩,
           ⟨"b".data, 20, 21, 23, FetchOutcome.transportFail "x".data⟩]).messages.map
        Message.id = ns.map natToStr ∧
      ns.Pairwise (· < ·) ∧
      ((runA ⟨[], [], false⟩
          [⟨"a".data, 10, 10, 12, FetchOutcome.noReader⟩,
           ⟨"b".data, 20, 21, 23, FetchOutcome.transportFail "x".data⟩]).messages.map
        Message.id).Pairwise (· ≠ ·) :=
  c9_ids_distinct_with_advancing_clock
    [⟨"a".data, 10, 10, 12, FetchOutcome.noReader⟩,
     ⟨"b".data, 20, 21, 23, FetchOutcome.transportFail "x".data⟩] (by decide)
